import Mathlib

/-!
Verification development for the MITM proxy's audit logger, CA bootstrap and
query handlers (src/proxy/logger.go, src/proxy/ca.go).

Shallow embedding conventions:
* Go strings and byte slices are modelled as Lean `String`/`List Char`
  (the logged payloads in the claims are ASCII, where byte indexing and
  character indexing coincide).
* `http.Request`/`http.Response` are modelled by the fields the logger reads:
  method, host, path, a header multimap in iteration order, and an optional
  body (`none` models both a nil body and an `io.ReadAll` failure, in both of
  which cases the Go code logs no body content).
* The Go map `requestIdx map[string]int` is modelled as an association list
  with replace-on-insert semantics (`mapInsert` / `mapLookup`).
* `uuid.New().String()[:8]` and `time.Now()` are external sources; each
  `LogRequest` call takes the drawn id and the two formatted time strings as
  explicit inputs.  `uuidIdOfBytes` models how the id string is derived from
  the four leading random bytes of a v4 UUID.
* The durable `requests.jsonl` file is modelled two ways: lines appended by
  the current session are kept structurally (`fileLines : List RequestLog`,
  one element per appended JSON line), while `loadExistingLogs` consumes the
  raw text of a pre-existing file through a JSON parser defined below.
-/

/-- One logged request/response record (struct `RequestLog` in logger.go).
`timestamp` keeps the RFC3339 text of the `time.Time`; `responseStatus` is the
Go `int` zero-initialised to 0. -/
structure RequestLog where
  id : String
  timestamp : String
  method : String
  domain : String
  path : String
  headers : List (String × String)
  body : String
  responseStatus : Int
  responseHeaders : List (String × String)
  responseBody : String
  pcapFile : String
deriving DecidableEq

/-- The zero value of `RequestLog` (what `var req RequestLog` starts as). -/
def emptyRequestLog : RequestLog :=
  { id := "", timestamp := "", method := "", domain := "", path := "",
    headers := [], body := "", responseStatus := 0, responseHeaders := [],
    responseBody := "", pcapFile := "" }

/-- In-memory state of `Logger` (logger.go): the lines appended to the durable
file during this session, the bounded working set, and the id-to-index map. -/
structure LoggerState where
  fileLines : List RequestLog
  requests : List RequestLog
  requestIdx : List (String × Nat)
deriving DecidableEq

/-- State of a logger created over a missing or empty durable file. -/
def initState : LoggerState :=
  { fileLines := [], requests := [], requestIdx := [] }

/-- Go map assignment `m[k] = v`: replace the binding if present, else add it. -/
def mapInsert (m : List (String × Nat)) (k : String) (v : Nat) :
    List (String × Nat) :=
  match m with
  | [] => [(k, v)]
  | (k', v') :: rest =>
      if k' = k then (k, v) :: rest else (k', v') :: mapInsert rest k v

/-- Go map read `m[k]` returning `(value, ok)`. -/
def mapLookup (m : List (String × Nat)) (k : String) : Option Nat :=
  match m with
  | [] => none
  | (k', v') :: rest => if k' = k then some v' else mapLookup rest k

/-- The incoming request as the logger sees it.  `headers` is `req.Header` in
one iteration order; `body` is `none` when `req.Body == nil` or reading it
fails. -/
structure HttpRequest where
  method : String
  host : String
  path : String
  headers : List (String × List String)
  body : Option String
deriving DecidableEq

/-- The upstream response as the logger sees it (status, `resp.Header`, and
the optional body with the same `none` convention as `HttpRequest.body`). -/
structure HttpResponse where
  statusCode : Int
  headers : List (String × List String)
  body : Option String
deriving DecidableEq

/-- The deny-list test in `LogRequest`: a case-sensitive comparison of the
header key against the three canonical MIME forms. -/
def sensitiveHeader (k : String) : Bool :=
  k = "Authorization" || k = "X-Api-Key" || k = "Api-Key"

/-- The header-collection loop of `LogRequest`: keep the first value of each
nonempty header, replacing values of deny-listed keys with the marker. -/
def collectReqHeaders (hs : List (String × List String)) :
    List (String × String) :=
  hs.filterMap fun kv =>
    match kv.2 with
    | [] => none
    | v :: _ => some (kv.1, if sensitiveHeader kv.1 then "[REDACTED]" else v)

/-- The header-collection loop of `LogResponse`: first value of each nonempty
header, no redaction. -/
def collectRespHeaders (hs : List (String × List String)) :
    List (String × String) :=
  hs.filterMap fun kv =>
    match kv.2 with
    | [] => none
    | v :: _ => some (kv.1, v)

/-- The 10 KiB body cap shared by `LogRequest` and `LogResponse`:
`if len(bodyBytes) > 10*1024 { body = string(bodyBytes[:10*1024]) + "... [truncated]" }`. -/
def capBody (b : String) : String :=
  if 10 * 1024 < b.length then
    String.mk (b.data.take (10 * 1024)) ++ "... [truncated]"
  else b

/-- `req.Method == "POST" || req.Method == "PUT" || req.Method == "PATCH"`. -/
def bodyMethod (m : String) : Bool :=
  m = "POST" || m = "PUT" || m = "PATCH"

/-- The request-body logging rule of `LogRequest`: a body is read and capped
only for POST/PUT/PATCH requests with a non-nil readable body. -/
def loggedReqBody (r : HttpRequest) : String :=
  match r.body with
  | none => ""
  | some b => if r.method = "POST" ∨ r.method = "PUT" ∨ r.method = "PATCH" then capBody b else ""

/-- `fmt.Sprintf("capture_%s.pcap", time.Now().Format(...))`. -/
def pcapName (t : String) : String :=
  "capture_" ++ t ++ ".pcap"

/-- The per-call external inputs of `LogRequest`: the request, the id drawn
from the UUID source, the formatted UTC timestamp, and the time string used
for the pcap file name. -/
structure LogInput where
  req : HttpRequest
  newId : String
  ts : String
  timeStr : String
deriving DecidableEq

/-- The `entry` value built by `LogRequest` before it is appended anywhere. -/
def mkEntry (inp : LogInput) : RequestLog :=
  { id := inp.newId, timestamp := inp.ts, method := inp.req.method,
    domain := inp.req.host, path := inp.req.path,
    headers := collectReqHeaders inp.req.headers,
    body := loggedReqBody inp.req,
    responseStatus := 0, responseHeaders := [], responseBody := "",
    pcapFile := pcapName inp.timeStr }

/-- The in-memory cap `1000` from `if len(l.requests) > 1000`. -/
def maxRequests : Nat := 1000

/-- The rebuild loop `for i, r := range l.requests { l.requestIdx[r.ID] = i }`
run over a fresh map, threading the running map and index. -/
def rebuildIdxAux (m : List (String × Nat)) (i : Nat) :
    List RequestLog → List (String × Nat)
  | [] => m
  | r :: rest => rebuildIdxAux (mapInsert m r.id i) (i + 1) rest

/-- Index rebuild after eviction: a fresh map filled positionally. -/
def rebuildIdx (rs : List RequestLog) : List (String × Nat) :=
  rebuildIdxAux [] 0 rs

/-- `Logger.LogRequest`: build the entry, append it to the durable file and
the working set, index it, and evict down to the most recent 1000 if the
bound is exceeded (rebuilding the index).  Returns the new state and the
entry, mirroring the Go return value. -/
def logRequest (st : LoggerState) (inp : LogInput) : LoggerState × RequestLog :=
  let entry := mkEntry inp
  let fileLines := st.fileLines ++ [entry]
  let requests := st.requests ++ [entry]
  let idx := mapInsert st.requestIdx entry.id (requests.length - 1)
  if maxRequests < requests.length then
    let kept := requests.drop (requests.length - maxRequests)
    ({ fileLines := fileLines, requests := kept, requestIdx := rebuildIdx kept },
     entry)
  else
    ({ fileLines := fileLines, requests := requests, requestIdx := idx }, entry)

/-- The response fields written by `LogResponse` into the indexed record. -/
def applyResponse (r : RequestLog) (resp : HttpResponse) : RequestLog :=
  { r with responseStatus := resp.statusCode,
           responseHeaders := collectRespHeaders resp.headers,
           responseBody := match resp.body with
                           | none => ""
                           | some b => capBody b }

/-- `Logger.LogResponse`: nil response returns immediately; an id missing from
`requestIdx` returns immediately; otherwise the indexed record is updated in
place and the whole updated record is appended as a new durable line.  (In
every state this logger produces, the stored index is in bounds, so the
out-of-bounds guard below is never taken; Go would panic there.) -/
def logResponse (st : LoggerState) (requestID : String)
    (resp : Option HttpResponse) : LoggerState :=
  match resp with
  | none => st
  | some resp =>
    match mapLookup st.requestIdx requestID with
    | none => st
    | some idx =>
      match st.requests[idx]? with
      | none => st
      | some r =>
        let r' := applyResponse r resp
        { st with requests := st.requests.set idx r',
                  fileLines := st.fileLines ++ [r'] }

/-- `Logger.GetRequests`: a copy of the working set in creation order. -/
def getRequests (st : LoggerState) : List RequestLog :=
  st.requests

/-- One `LogRequest` call viewed as a state transition. -/
def logStep (st : LoggerState) (inp : LogInput) : LoggerState :=
  (logRequest st inp).1

/-- The logger state after a sequence of `LogRequest` calls on a fresh logger. -/
def runLog (inputs : List LogInput) : LoggerState :=
  inputs.foldl logStep initState

/-- The entries the calls in `inputs` create, in creation order. -/
def entriesOf (inputs : List LogInput) : List RequestLog :=
  inputs.map mkEntry

/-! ### Basic facts about `logRequest` -/

theorem logRequest_snd (st : LoggerState) (inp : LogInput) :
    (logRequest st inp).2 = mkEntry inp := by
  simp only [logRequest]
  split <;> rfl

theorem logRequest_fileLines_eq (st : LoggerState) (inp : LogInput) :
    (logRequest st inp).1.fileLines = st.fileLines ++ [mkEntry inp] := by
  simp only [logRequest]
  split <;> rfl

theorem logRequest_entry_mem (st : LoggerState) (inp : LogInput) :
    mkEntry inp ∈ (logRequest st inp).1.requests := by
  simp only [logRequest]
  split
  · next h =>
    have h1000 : maxRequests = 1000 := rfl
    have hle : st.requests.length + 1 - maxRequests ≤ st.requests.length := by
      simp only [List.length_append, List.length_singleton] at h
      omega
    simp only
    rw [List.length_append, List.length_singleton,
      List.drop_append_of_le_length hle]
    exact List.mem_append_right _ (by simp)
  · exact List.mem_append_right _ (by simp)

/-! ### C6: the 10 KiB body cap -/

/-- C6: both `LogRequest` and `LogResponse` cap stored bodies at 10 KiB: short
bodies are stored unmodified, long bodies are stored as exactly the first
10 KiB followed by the truncation marker; in particular 20 KiB of `a` is
stored as the first 10 KiB plus the marker and a 1 KiB body is unchanged. -/
theorem c6_body_cap :
    (∀ b : String, b.length ≤ 10 * 1024 → capBody b = b) ∧
    (∀ b : String, 10 * 1024 < b.length →
      capBody b = String.mk (b.data.take (10 * 1024)) ++ "... [truncated]") ∧
    capBody (String.mk (List.replicate 20480 ('a'))) =
      String.mk (List.replicate 10240 ('a')) ++ "... [truncated]" ∧
    capBody (String.mk (List.replicate 1024 ('a'))) =
      String.mk (List.replicate 1024 ('a')) ∧
    (∀ (st : LoggerState) (inp : LogInput) (b : String), inp.req.body = some b →
      (inp.req.method = "POST" ∨ inp.req.method = "PUT" ∨ inp.req.method = "PATCH") →
      (logRequest st inp).2.body = capBody b) ∧
    (∀ (r : RequestLog) (resp : HttpResponse) (b : String), resp.body = some b →
      (applyResponse r resp).responseBody = capBody b) := by
  refine ⟨?_, ?_, ?_, ?_, ?_, ?_⟩
  · intro b h
    rw [capBody, if_neg (by omega)]
  · intro b h
    rw [capBody, if_pos h]
  · have hlen : (String.mk (List.replicate 20480 ('a'))).length = 20480 := by
      rw [String.length_mk, List.length_replicate]
    rw [capBody, if_pos (by omega)]
    have : (String.mk (List.replicate 20480 ('a'))).data = List.replicate 20480 ('a') := rfl
    rw [this, List.take_replicate, Nat.min_eq_left (by omega)]
  · have hlen : (String.mk (List.replicate 1024 ('a'))).length = 1024 := by
      rw [String.length_mk, List.length_replicate]
    rw [capBody, if_neg (by omega)]
  · intro st inp b hb hm
    rw [logRequest_snd]
    simp only [mkEntry, loggedReqBody, hb]
    rw [if_pos hm]
  · intro r resp b hb
    simp only [applyResponse, hb]

/-- Witness for C6 at concrete inputs: a two-character body is below the cap
and stored unchanged. -/
theorem c6_body_cap_witness : capBody ("ab") = "ab" :=
  c6_body_cap.1 ("ab") (by decide)

/-! ### C10: only POST/PUT/PATCH bodies are logged -/

/-- C10: for any request whose method is not POST, PUT or PATCH, the record
`LogRequest` stores (and retains in the working set) has an empty body field,
whatever body the request carries. -/
theorem c10_body_only_write_methods (st : LoggerState) (inp : LogInput)
    (h : bodyMethod inp.req.method = false) :
    (logRequest st inp).2.body = "" ∧
    (logRequest st inp).2 ∈ (logRequest st inp).1.requests := by
  constructor
  · rw [logRequest_snd]
    simp only [bodyMethod, Bool.or_eq_false_iff, decide_eq_false_iff_not] at h
    cases hb : inp.req.body with
    | none => simp [mkEntry, loggedReqBody, hb]
    | some b =>
      simp only [mkEntry, loggedReqBody, hb]
      rw [if_neg (by tauto)]
  · rw [logRequest_snd]
    exact logRequest_entry_mem st inp

/-- Witness for C10: a GET request carrying a body is stored with an empty
body field. -/
theorem c10_body_only_write_methods_witness :
    (logRequest initState
      { req := { method := "GET", host := "h", path := "/", headers := [],
                 body := some ("payload") },
        newId := "cccccccc", ts := "t", timeStr := "u" }).2.body = "" :=
  (c10_body_only_write_methods initState _ (by decide)).1

/-! ### C1: header redaction -/

/-- C1 (amended): `LogRequest` redacts by a case-sensitive comparison against
the canonical MIME forms `Authorization`, `X-Api-Key`, `Api-Key`.  For every
header whose name equals one of these exactly, the stored value is the fixed
marker: no cleartext value survives under such a name in the returned entry,
and that same entry is what reaches the working set (hence every snapshot)
and the durable file. -/
theorem c1_redaction_amended (st : LoggerState) (inp : LogInput) :
    (∀ k v, (k, v) ∈ (logRequest st inp).2.headers → sensitiveHeader k = true →
      v = "[REDACTED]") ∧
    (∀ k v vs, (k, v :: vs) ∈ inp.req.headers → sensitiveHeader k = true →
      (k, "[REDACTED]") ∈ (logRequest st inp).2.headers) ∧
    (logRequest st inp).2 ∈ getRequests (logRequest st inp).1 ∧
    (logRequest st inp).2 ∈ (logRequest st inp).1.fileLines := by
  refine ⟨?_, ?_, ?_, ?_⟩
  · intro k v hmem hsens
    rw [logRequest_snd] at hmem
    simp only [mkEntry, collectReqHeaders] at hmem
    obtain ⟨⟨k', vs⟩, hin, heq⟩ := List.mem_filterMap.mp hmem
    cases vs with
    | nil => simp at heq
    | cons v0 rest =>
      simp only [Option.some.injEq, Prod.mk.injEq] at heq
      obtain ⟨hk, hv⟩ := heq
      subst hk
      rw [hsens] at hv
      simp at hv
      exact hv.symm
  · intro k v vs hmem hsens
    rw [logRequest_snd]
    simp only [mkEntry, collectReqHeaders]
    refine List.mem_filterMap.mpr ⟨(k, v :: vs), hmem, ?_⟩
    simp [hsens]
  · rw [logRequest_snd]
    exact logRequest_entry_mem st inp
  · rw [logRequest_snd, logRequest_fileLines_eq]
    exact List.mem_append_right _ (by simp)

/-- A request whose `Authorization` header arrives under the canonical MIME
name, as the Go HTTP parser delivers it. -/
def c1WitInput : LogInput :=
  { req := { method := "GET", host := "example.com", path := "/",
             headers := [("Authorization", ["Bearer secret123"])],
             body := none },
    newId := "bbbbbbbb", ts := "2026-01-01T00:00:00Z",
    timeStr := "20260101_000000" }

/-- Witness for C1: applying the amended theorem at a concrete request whose
`Authorization` header carries `Bearer secret123` shows the marker is stored. -/
theorem c1_redaction_amended_witness :
    ("Authorization", "[REDACTED]") ∈ (logRequest initState c1WitInput).2.headers :=
  (c1_redaction_amended initState c1WitInput).2.1 ("Authorization")
    ("Bearer secret123") [] (by decide) (by decide)

/-- ASCII lowercasing, used to state case-insensitive matching of header
names (header names are ASCII tokens). -/
def lowerChar (c : Char) : Char :=
  if 'A' ≤ c ∧ c ≤ 'Z' then Char.ofNat (c.toNat + 32) else c

/-- ASCII lowercasing of a string. -/
def lowerStr (s : String) : String :=
  String.mk (s.data.map lowerChar)

/-- A request whose deny-listed header name arrives in lowercase, as an
HTTP/2 client would send it and as any caller may populate `req.Header`. -/
def c1CexInput : LogInput :=
  { req := { method := "GET", host := "example.com", path := "/",
             headers := [("authorization", ["Bearer secret123"])],
             body := none },
    newId := "aaaaaaaa", ts := "2026-01-01T00:00:00Z",
    timeStr := "20260101_000000" }

/-- Counterexample to C1 as stated: a header named `authorization` (lowercase)
matches the deny-list case-insensitively, yet `LogRequest` stores its value
`Bearer secret123` in cleartext, so the case-insensitive redaction claim is
false. -/
theorem c1_counterexample :
    (logRequest initState c1CexInput).2.headers =
      [("authorization", "Bearer secret123")] ∧
    (logRequest initState c1CexInput).2 ∈
      getRequests (logRequest initState c1CexInput).1 ∧
    ¬ (∀ k v, (k, v) ∈ (logRequest initState c1CexInput).2.headers →
        lowerStr k = lowerStr ("Authorization") → v = "[REDACTED]") :=
  ⟨by decide, by decide,
   fun h =>
     absurd (h ("authorization") ("Bearer secret123") (by decide) (by decide))
       (by decide)⟩

/-! ### Map and index-rebuild lemmas -/

theorem mapLookup_insert_self (m : List (String × Nat)) (k : String) (v : Nat) :
    mapLookup (mapInsert m k v) k = some v := by
  induction m with
  | nil => simp [mapInsert, mapLookup]
  | cons p rest ih =>
    obtain ⟨k', v'⟩ := p
    by_cases h : k' = k
    · simp [mapInsert, h, mapLookup]
    · simp [mapInsert, h, mapLookup, ih]

theorem mapLookup_insert_ne (m : List (String × Nat)) (k : String) (v : Nat)
    (k2 : String) (h : k2 ≠ k) :
    mapLookup (mapInsert m k v) k2 = mapLookup m k2 := by
  induction m with
  | nil => simp [mapInsert, mapLookup, Ne.symm h]
  | cons p rest ih =>
    obtain ⟨k', v'⟩ := p
    by_cases hk : k' = k
    · subst hk
      simp [mapInsert, mapLookup, Ne.symm h]
    · by_cases hk2 : k' = k2
      · simp [mapInsert, hk, mapLookup, hk2, h]
      · simp [mapInsert, hk, mapLookup, hk2, ih]

theorem rebuildIdxAux_lookup_notmem (rs : List RequestLog)
    (m : List (String × Nat)) (i : Nat) (k : String)
    (h : k ∉ rs.map (fun r => r.id)) :
    mapLookup (rebuildIdxAux m i rs) k = mapLookup m k := by
  induction rs generalizing m i with
  | nil => rfl
  | cons r rest ih =>
    simp only [List.map_cons, List.mem_cons, not_or] at h
    rw [rebuildIdxAux, ih _ _ h.2, mapLookup_insert_ne _ _ _ _ h.1]

theorem rebuildIdxAux_lookup_get (rs : List RequestLog)
    (m : List (String × Nat)) (i : Nat)
    (hnd : (rs.map (fun r => r.id)).Nodup) (j : Nat) (hj : j < rs.length) :
    mapLookup (rebuildIdxAux m i rs) (rs[j].id) = some (i + j) := by
  induction rs generalizing m i j with
  | nil => simp at hj
  | cons r rest ih =>
    simp only [List.map_cons, List.nodup_cons] at hnd
    obtain ⟨hnotin, hnd'⟩ := hnd
    cases j with
    | zero =>
      rw [rebuildIdxAux, List.getElem_cons_zero,
        rebuildIdxAux_lookup_notmem rest _ _ _ hnotin, mapLookup_insert_self]
      simp
    | succ j' =>
      rw [rebuildIdxAux, List.getElem_cons_succ]
      have hj' : j' < rest.length := by simpa using hj
      rw [ih _ _ hnd' j' hj']
      have : i + 1 + j' = i + (j' + 1) := by omega
      rw [this]

theorem rebuildIdxAux_lookup_some (rs : List RequestLog)
    (m : List (String × Nat)) (i : Nat) (k : String) (j : Nat)
    (h : mapLookup (rebuildIdxAux m i rs) k = some j) :
    (∃ t, ∃ ht : t < rs.length, rs[t].id = k ∧ j = i + t) ∨
      (k ∉ rs.map (fun r => r.id) ∧ mapLookup m k = some j) := by
  induction rs generalizing m i with
  | nil => exact Or.inr ⟨by simp, h⟩
  | cons r rest ih =>
    rw [rebuildIdxAux] at h
    rcases ih _ _ h with ⟨t, ht, hid, hj⟩ | ⟨hnm, hlk⟩
    · refine Or.inl ⟨t + 1, by simpa using ht, ?_, by omega⟩
      rw [List.getElem_cons_succ]
      exact hid
    · by_cases hk : k = r.id
      · subst hk
        rw [mapLookup_insert_self] at hlk
        have hij : i = j := Option.some.inj hlk
        refine Or.inl ⟨0, by simp, ?_, ?_⟩
        · rw [List.getElem_cons_zero]
        · omega
      · rw [mapLookup_insert_ne _ _ _ _ hk] at hlk
        refine Or.inr ⟨?_, hlk⟩
        simp only [List.map_cons, List.mem_cons, not_or]
        exact ⟨hk, hnm⟩

/-! ### Invariants of a run of `LogRequest` calls -/

theorem runLog_append (inputs : List LogInput) (x : LogInput) :
    runLog (inputs ++ [x]) = logStep (runLog inputs) x := by
  simp [runLog, List.foldl_append]

theorem entriesOf_ids (inputs : List LogInput) :
    (entriesOf inputs).map (fun r => r.id) = inputs.map (fun i => i.newId) := by
  induction inputs with
  | nil => rfl
  | cons x xs ih =>
    simp only [entriesOf, List.map_cons] at ih ⊢
    rw [ih]
    rfl

theorem entriesOf_append_singleton (inputs : List LogInput) (x : LogInput) :
    entriesOf (inputs ++ [x]) = entriesOf inputs ++ [mkEntry x] := by
  simp [entriesOf]

/-- The working set after any run is exactly the suffix of the creation-order
entry sequence that fits in the 1000-record window. -/
theorem runLog_requests_eq (inputs : List LogInput) :
    (runLog inputs).requests =
      (entriesOf inputs).drop (inputs.length - maxRequests) := by
  induction inputs using List.reverseRecOn with
  | nil => rfl
  | append_singleton xs x ih =>
    have hM : maxRequests = 1000 := rfl
    have hE : (entriesOf xs).length = xs.length := by simp [entriesOf]
    rw [runLog_append, entriesOf_append_singleton]
    simp only [logStep, logRequest, List.length_append, List.length_singleton]
    rw [ih]
    split
    · next hc =>
      simp only
      rw [List.length_drop, hE] at hc ⊢
      have hxM : maxRequests ≤ xs.length := by omega
      have h1 : xs.length - (xs.length - maxRequests) + 1 - maxRequests = 1 := by
        omega
      rw [h1]
      rw [List.drop_append_of_le_length
        (by rw [List.length_drop, hE]; omega)]
      rw [List.drop_drop]
      rw [List.drop_append_of_le_length (by rw [hE]; omega)]
      have h2 : xs.length - maxRequests + 1 = xs.length + 1 - maxRequests := by
        omega
      rw [h2]
    · next hc =>
      simp only
      rw [List.length_drop, hE] at hc
      have hxM : xs.length < maxRequests := by omega
      have h0 : xs.length - maxRequests = 0 := by omega
      have h0' : xs.length + 1 - maxRequests = 0 := by omega
      rw [h0, h0', List.drop_zero, List.drop_zero]

theorem runLog_requests_length (inputs : List LogInput) :
    (runLog inputs).requests.length = min inputs.length maxRequests := by
  rw [runLog_requests_eq, List.length_drop]
  have hE : (entriesOf inputs).length = inputs.length := by simp [entriesOf]
  rw [hE]
  omega

/-- The retained ids are a suffix of the drawn ids, so they inherit
distinctness of the draws. -/
theorem runLog_ids_nodup (inputs : List LogInput)
    (hnd : (inputs.map (fun i => i.newId)).Nodup) :
    ((runLog inputs).requests.map (fun r => r.id)).Nodup := by
  rw [runLog_requests_eq, List.map_drop, entriesOf_ids]
  exact hnd.sublist (List.drop_sublist _ _)

theorem getElem?_append_lt {α : Type} (l1 l2 : List α) (n : Nat)
    (h : n < l1.length) : (l1 ++ l2)[n]? = l1[n]? := by
  rw [List.getElem?_append, if_pos h]

theorem getElem?_append_ge {α : Type} (l1 l2 : List α) (n : Nat)
    (h : l1.length ≤ n) : (l1 ++ l2)[n]? = l2[n - l1.length]? := by
  rw [List.getElem?_append, if_neg (by omega)]

theorem logStep_evict_requests (st : LoggerState) (inp : LogInput)
    (hc : maxRequests < (st.requests ++ [mkEntry inp]).length) :
    (logStep st inp).requests =
      (st.requests ++ [mkEntry inp]).drop
        ((st.requests ++ [mkEntry inp]).length - maxRequests) := by
  simp only [logStep, logRequest]
  rw [if_pos hc]

theorem logStep_evict_requestIdx (st : LoggerState) (inp : LogInput)
    (hc : maxRequests < (st.requests ++ [mkEntry inp]).length) :
    (logStep st inp).requestIdx =
      rebuildIdx ((st.requests ++ [mkEntry inp]).drop
        ((st.requests ++ [mkEntry inp]).length - maxRequests)) := by
  simp only [logStep, logRequest]
  rw [if_pos hc]

theorem logStep_noevict_requests (st : LoggerState) (inp : LogInput)
    (hc : ¬ maxRequests < (st.requests ++ [mkEntry inp]).length) :
    (logStep st inp).requests = st.requests ++ [mkEntry inp] := by
  simp only [logStep, logRequest]
  rw [if_neg hc]

theorem logStep_noevict_requestIdx (st : LoggerState) (inp : LogInput)
    (hc : ¬ maxRequests < (st.requests ++ [mkEntry inp]).length) :
    (logStep st inp).requestIdx =
      mapInsert st.requestIdx (mkEntry inp).id
        ((st.requests ++ [mkEntry inp]).length - 1) := by
  simp only [logStep, logRequest]
  rw [if_neg hc]

/-- With pairwise-distinct draws, `requestIdx` maps the id of the record at
position `j` of the working set to `j`, and conversely every binding it
returns points at a position holding that id. -/
theorem runLog_idx_inv (inputs : List LogInput)
    (hnd : (inputs.map (fun i => i.newId)).Nodup) :
    (∀ j r, (runLog inputs).requests[j]? = some r →
        mapLookup (runLog inputs).requestIdx r.id = some j) ∧
    (∀ k j, mapLookup (runLog inputs).requestIdx k = some j →
        ∃ r, (runLog inputs).requests[j]? = some r ∧ r.id = k) := by
  induction inputs using List.reverseRecOn with
  | nil =>
    constructor
    · intro j r hjr
      simp [runLog, initState] at hjr
    · intro k j h
      simp [runLog, initState, mapLookup] at h
  | append_singleton xs x ih =>
    have hnd' : (xs.map (fun i => i.newId)).Nodup := by
      rw [List.map_append] at hnd
      exact hnd.of_append_left
    have hxnew : x.newId ∉ xs.map (fun i => i.newId) := by
      rw [List.map_append, List.nodup_append_comm] at hnd
      simp only [List.map_cons, List.map_nil, List.singleton_append,
        List.nodup_cons] at hnd
      exact hnd.1
    obtain ⟨ihf, ihc⟩ := ih hnd'
    have hndnew : ((runLog (xs ++ [x])).requests.map (fun r => r.id)).Nodup :=
      runLog_ids_nodup _ hnd
    -- the id of any record retained before this call differs from the new id
    have hold2 : ∀ (j : Nat) (r : RequestLog),
        (runLog xs).requests[j]? = some r → r.id ≠ x.newId := by
      intro j r hjr heq
      apply hxnew
      rw [← entriesOf_ids]
      have hmem : r ∈ (runLog xs).requests := List.getElem?_mem hjr
      have hsub : List.Sublist (runLog xs).requests (entriesOf xs) := by
        rw [runLog_requests_eq]
        exact List.drop_sublist _ _
      exact List.mem_map.mpr ⟨r, hsub.mem hmem, heq⟩
    rw [runLog_append]
    by_cases hc : maxRequests < ((runLog xs).requests ++ [mkEntry x]).length
    · -- eviction branch: the index is rebuilt from the kept suffix
      have hndkept : ((((runLog xs).requests ++ [mkEntry x]).drop
            (((runLog xs).requests ++ [mkEntry x]).length - maxRequests)).map
              (fun r => r.id)).Nodup := by
        have h2 := hndnew
        rw [runLog_append, logStep_evict_requests _ _ hc] at h2
        exact h2
      constructor
      · intro j r hjr
        rw [logStep_evict_requests _ _ hc] at hjr
        rw [logStep_evict_requestIdx _ _ hc, rebuildIdx]
        obtain ⟨hj, hr⟩ := List.getElem?_eq_some.mp hjr
        have := rebuildIdxAux_lookup_get _ [] 0 hndkept j hj
        rw [hr] at this
        simpa using this
      · intro k j h
        rw [logStep_evict_requestIdx _ _ hc, rebuildIdx] at h
        rw [logStep_evict_requests _ _ hc]
        rcases rebuildIdxAux_lookup_some _ [] 0 k j h with
          ⟨t, ht, hid, hj0⟩ | ⟨_, hlk⟩
        · have hjt : j = t := by omega
          subst hjt
          exact ⟨_, List.getElem?_eq_getElem ht, hid⟩
        · cases hlk
    · -- no eviction: the new binding sits on top of the old index
      have hlen1 : ((runLog xs).requests ++ [mkEntry x]).length =
          (runLog xs).requests.length + 1 := by simp
      constructor
      · intro j r hjr
        rw [logStep_noevict_requests _ _ hc] at hjr
        rw [logStep_noevict_requestIdx _ _ hc, hlen1, Nat.add_sub_cancel]
        rcases Nat.lt_trichotomy j (runLog xs).requests.length with hjlt | hje | hjgt
        · rw [getElem?_append_lt _ _ _ hjlt] at hjr
          have hne : r.id ≠ (mkEntry x).id := hold2 j r hjr
          rw [mapLookup_insert_ne _ _ _ _ hne]
          exact ihf j r hjr
        · subst hje
          rw [getElem?_append_ge _ _ _ (le_refl _), Nat.sub_self] at hjr
          have hre : r = mkEntry x := (Option.some.inj hjr).symm
          subst hre
          rw [mapLookup_insert_self]
        · rw [getElem?_append_ge _ _ _ (by omega)] at hjr
          have hnone : ([mkEntry x] : List RequestLog)[j - (runLog xs).requests.length]? = none := by
            rw [List.getElem?_eq_none]
            simp
            omega
          rw [hnone] at hjr
          cases hjr
      · intro k j h
        rw [logStep_noevict_requestIdx _ _ hc, hlen1, Nat.add_sub_cancel] at h
        rw [logStep_noevict_requests _ _ hc]
        by_cases hk : k = (mkEntry x).id
        · subst hk
          rw [mapLookup_insert_self] at h
          have hj : (runLog xs).requests.length = j := Option.some.inj h
          subst hj
          refine ⟨mkEntry x, ?_, rfl⟩
          rw [getElem?_append_ge _ _ _ (le_refl _), Nat.sub_self]
          rfl
        · rw [mapLookup_insert_ne _ _ _ _ hk] at h
          obtain ⟨r, hjr, hid⟩ := ihc k j h
          have hj : j < (runLog xs).requests.length := by
            obtain ⟨hh, _⟩ := List.getElem?_eq_some.mp hjr
            exact hh
          refine ⟨r, ?_, hid⟩
          rw [getElem?_append_lt _ _ _ hj]
          exact hjr

/-! ### C3: the 1000-record working-set bound -/

/-- C3: the working set never exceeds 1000 records; it is exactly the suffix
of the creation-order entry sequence that fits the window (so after 1500
calls a snapshot holds exactly the 1000 most recent entries in creation
order); and whenever the drawn ids are pairwise distinct, the rebuilt
id-to-position lookup agrees with the retained sequence. -/
theorem c3_working_set_bound (inputs : List LogInput) :
    (getRequests (runLog inputs)).length ≤ 1000 ∧
    getRequests (runLog inputs) =
      (entriesOf inputs).drop (inputs.length - maxRequests) ∧
    (getRequests (runLog inputs)).length = min inputs.length maxRequests ∧
    (inputs.length = 1500 → (getRequests (runLog inputs)).length = 1000) ∧
    ((inputs.map (fun i => i.newId)).Nodup →
      ∀ (j : Nat) (r : RequestLog), (runLog inputs).requests[j]? = some r →
        mapLookup (runLog inputs).requestIdx r.id = some j) := by
  have hlen := runLog_requests_length inputs
  have hM : maxRequests = 1000 := rfl
  refine ⟨?_, ?_, ?_, ?_, ?_⟩
  · rw [getRequests, hlen]
    omega
  · rw [getRequests]
    exact runLog_requests_eq inputs
  · rw [getRequests]
    exact hlen
  · intro h1500
    rw [getRequests, hlen, h1500]
    decide
  · intro hnd
    exact (runLog_idx_inv inputs hnd).1

/-- Two concrete requests with distinct ids for exercising C3. -/
def c3WitInp1 : LogInput :=
  { req := { method := "GET", host := "a.example", path := "/x", headers := [],
             body := none },
    newId := "00000001", ts := "t1", timeStr := "u1" }

/-- Second concrete request with a different id. -/
def c3WitInp2 : LogInput :=
  { req := { method := "GET", host := "b.example", path := "/y", headers := [],
             body := none },
    newId := "00000002", ts := "t2", timeStr := "u2" }

/-- Witness for C3: on a concrete two-call run with distinct ids the lookup
maps the first retained record's id to position 0. -/
theorem c3_working_set_bound_witness :
    mapLookup (runLog [c3WitInp1, c3WitInp2]).requestIdx
      (mkEntry c3WitInp1).id = some 0 :=
  (c3_working_set_bound [c3WitInp1, c3WitInp2]).2.2.2.2 (by decide) 0
    (mkEntry c3WitInp1) (by decide)

/-! ### C7: completion for an unknown id is a no-op -/

/-- C7: `LogResponse` with an id the index does not know is a no-op on the
whole logger state (so neither the working-set size, nor any retained
record, nor the lookup, nor the durable file changes, and no error is
reported); and on any reachable state with distinct draws, an id that is
not among the retained records' ids is exactly such an unknown id. -/
theorem c7_unknown_id_noop :
    (∀ (st : LoggerState) (rid : String) (resp : Option HttpResponse),
        mapLookup st.requestIdx rid = none → logResponse st rid resp = st) ∧
    (∀ (inputs : List LogInput) (rid : String) (resp : Option HttpResponse),
        (inputs.map (fun i => i.newId)).Nodup →
        rid ∉ (runLog inputs).requests.map (fun r => r.id) →
        logResponse (runLog inputs) rid resp = runLog inputs) := by
  have hbase : ∀ (st : LoggerState) (rid : String) (resp : Option HttpResponse),
      mapLookup st.requestIdx rid = none → logResponse st rid resp = st := by
    intro st rid resp h
    cases resp with
    | none => rfl
    | some r => simp only [logResponse, h]
  refine ⟨hbase, ?_⟩
  intro inputs rid resp hnd habs
  apply hbase
  cases hl : mapLookup (runLog inputs).requestIdx rid with
  | none => rfl
  | some j =>
    exfalso
    obtain ⟨r, hjr, hid⟩ := (runLog_idx_inv inputs hnd).2 rid j hl
    exact habs (List.mem_map.mpr ⟨r, List.getElem?_mem hjr, hid⟩)

/-- Witness for C7: completing an id never recorded leaves a concrete
one-request state untouched. -/
theorem c7_unknown_id_noop_witness :
    logResponse (runLog [c3WitInp1]) ("zzzzzzzz")
        (some { statusCode := 200, headers := [], body := none }) =
      runLog [c3WitInp1] :=
  c7_unknown_id_noop.2 [c3WitInp1] ("zzzzzzzz")
    (some { statusCode := 200, headers := [], body := none })
    (by decide) (by decide)

/-! ### C2: id assignment -/

/-- Lowercase hex digit characters as the Go uuid package prints them. -/
def hexDigitChar (n : Nat) : Char :=
  if n < 10 then Char.ofNat (48 + n) else Char.ofNat (87 + n)

/-- Hex encoding of one byte: two characters. -/
def byteToHex (b : Nat) : List Char :=
  [hexDigitChar (b / 16), hexDigitChar (b % 16)]

/-- `uuid.New().String()[:8]`: the first eight characters of the textual v4
UUID are the lowercase hex encoding of its first four random bytes. -/
def uuidIdOfBytes (b0 b1 b2 b3 : Nat) : String :=
  String.mk (byteToHex b0 ++ byteToHex b1 ++ byteToHex b2 ++ byteToHex b3)

/-- The id produced by a 32-bit random draw, big-endian byte order. -/
def idEncode (n : Nat) : String :=
  uuidIdOfBytes (n / 16777216 % 256) (n / 65536 % 256) (n / 256 % 256) (n % 256)

/-- Inverse of `hexDigitChar` on hex digit characters. -/
def hexVal (c : Char) : Nat :=
  if 97 ≤ c.toNat then c.toNat - 87 else c.toNat - 48

/-- Byte value of a two-character hex pair. -/
def byteOfHex : List Char → Nat
  | [c1, c2] => hexVal c1 * 16 + hexVal c2
  | _ => 0

/-- The 32-bit value a well-formed id encodes. -/
def idDecode (s : String) : Nat :=
  match s.data with
  | [c0, c1, c2, c3, c4, c5, c6, c7] =>
      byteOfHex [c0, c1] * 16777216 + byteOfHex [c2, c3] * 65536 +
        byteOfHex [c4, c5] * 256 + byteOfHex [c6, c7]
  | _ => 0

theorem hexVal_hexDigitChar : ∀ n < 16, hexVal (hexDigitChar n) = n := by decide

theorem byteOfHex_byteToHex (b : Nat) (hb : b < 256) :
    byteOfHex (byteToHex b) = b := by
  have h1 : b / 16 < 16 := by omega
  have h2 : b % 16 < 16 := by omega
  simp only [byteToHex, byteOfHex]
  rw [hexVal_hexDigitChar _ h1, hexVal_hexDigitChar _ h2]
  omega

theorem idDecode_idEncode (n : Nat) (hn : n < 4294967296) :
    idDecode (idEncode n) = n := by
  simp only [idEncode, uuidIdOfBytes, byteToHex, idDecode, List.cons_append,
    List.nil_append]
  have e0 : byteOfHex [hexDigitChar (n / 16777216 % 256 / 16),
      hexDigitChar (n / 16777216 % 256 % 16)] = n / 16777216 % 256 :=
    byteOfHex_byteToHex _ (by omega)
  have e1 : byteOfHex [hexDigitChar (n / 65536 % 256 / 16),
      hexDigitChar (n / 65536 % 256 % 16)] = n / 65536 % 256 :=
    byteOfHex_byteToHex _ (by omega)
  have e2 : byteOfHex [hexDigitChar (n / 256 % 256 / 16),
      hexDigitChar (n / 256 % 256 % 16)] = n / 256 % 256 :=
    byteOfHex_byteToHex _ (by omega)
  have e3 : byteOfHex [hexDigitChar (n % 256 / 16),
      hexDigitChar (n % 256 % 16)] = n % 256 :=
    byteOfHex_byteToHex _ (by omega)
  rw [e0, e1, e2, e3]
  omega

/-- C2 (amended): each assigned id is the hex image of a 32-bit random value
(`idEncode` is injective below 2^32, so the id space has exactly 2^32
elements — 32 bits of entropy), and the ids retained in the working set are
pairwise distinct whenever the underlying 32-bit draws are pairwise
distinct.  The code never enforces distinctness itself, so colliding draws
produce colliding ids. -/
theorem c2_ids_amended :
    (∀ m n : Nat, m < 4294967296 → n < 4294967296 →
      idEncode m = idEncode n → m = n) ∧
    (∀ (inputs : List LogInput) (draws : List Nat),
      (∀ d ∈ draws, d < 4294967296) → draws.Nodup →
      inputs.map (fun i => i.newId) = draws.map idEncode →
      ((runLog inputs).requests.map (fun r => r.id)).Nodup) := by
  have hinj : ∀ m n : Nat, m < 4294967296 → n < 4294967296 →
      idEncode m = idEncode n → m = n := by
    intro m n hm hn h
    have := congrArg idDecode h
    rwa [idDecode_idEncode m hm, idDecode_idEncode n hn] at this
  refine ⟨hinj, ?_⟩
  intro inputs draws hbound hdnd hmap
  apply runLog_ids_nodup
  rw [hmap]
  exact hdnd.map_on fun a ha b hb hab => hinj a b (hbound a ha) (hbound b hb) hab

/-- First concrete call whose draw is the 32-bit value 0. -/
def c2CexInp1 : LogInput :=
  { req := { method := "GET", host := "a.example", path := "/x", headers := [],
             body := none },
    newId := idEncode 0, ts := "t1", timeStr := "u1" }

/-- Second concrete call whose draw collides with the first. -/
def c2CexInp2 : LogInput :=
  { req := { method := "GET", host := "b.example", path := "/y", headers := [],
             body := none },
    newId := idEncode 0, ts := "t2", timeStr := "u2" }

/-- Counterexample to C2 as stated: nothing in `LogRequest` prevents two
calls from drawing the same UUID prefix, and when they do, the two retained
records carry the same id: the ids in the working set are not pairwise
distinct for every sequence of calls. -/
theorem c2_counterexample :
    ¬ (((runLog [c2CexInp1, c2CexInp2]).requests.map (fun r => r.id)).Nodup) ∧
    (runLog [c2CexInp1, c2CexInp2]).requests.length = 2 := by
  constructor
  · decide
  · decide

/-- First concrete call for the C2 witness, draw 0. -/
def c2WitInp1 : LogInput :=
  { req := { method := "GET", host := "a.example", path := "/x", headers := [],
             body := none },
    newId := idEncode 0, ts := "t1", timeStr := "u1" }

/-- Second concrete call for the C2 witness, draw 1. -/
def c2WitInp2 : LogInput :=
  { req := { method := "GET", host := "b.example", path := "/y", headers := [],
             body := none },
    newId := idEncode 1, ts := "t2", timeStr := "u2" }

/-- Witness for C2: with the distinct draws 0 and 1 the retained ids are
pairwise distinct. -/
theorem c2_ids_amended_witness :
    ((runLog [c2WitInp1, c2WitInp2]).requests.map (fun r => r.id)).Nodup :=
  c2_ids_amended.2 [c2WitInp1, c2WitInp2] [0, 1] (by decide) (by decide)
    (by decide)

/-! ### C5: response completion is applied on every call, not once -/

/-- C5 (amended): `LogResponse` has no once-only guard.  Every call whose id
is present in the index overwrites the indexed record's response fields with
the new response and appends the whole updated record as a further durable
line — a second completion for the same id mutates the record again and
appends again; at-most-once completion is a property of the caller, not of
`LogResponse`. -/
theorem c5_completion_applied (st : LoggerState) (rid : String)
    (resp : HttpResponse) (idx : Nat) (r : RequestLog)
    (hl : mapLookup st.requestIdx rid = some idx)
    (hr : st.requests[idx]? = some r) :
    logResponse st rid (some resp) =
      { st with requests := st.requests.set idx (applyResponse r resp),
                fileLines := st.fileLines ++ [applyResponse r resp] } := by
  simp only [logResponse, hl, hr]

/-- The recorded request used for the C5 scenario. -/
def c5Inp : LogInput :=
  { req := { method := "GET", host := "api.example", path := "/v",
             headers := [], body := none },
    newId := "dddddddd", ts := "t1", timeStr := "u1" }

/-- The first completion (status 200). -/
def c5Resp1 : HttpResponse :=
  { statusCode := 200, headers := [("Content-Type", ["text/plain"])],
    body := some "ok" }

/-- The second completion for the same id (status 404). -/
def c5Resp2 : HttpResponse :=
  { statusCode := 404, headers := [], body := some "gone" }

/-- State after recording one request and completing it once. -/
def c5St1 : LoggerState :=
  logResponse (logRequest initState c5Inp).1 ("dddddddd") (some c5Resp1)

/-- State after a second completion for the same id. -/
def c5St2 : LoggerState :=
  logResponse c5St1 ("dddddddd") (some c5Resp2)

/-- Counterexample to C5 as stated: after `record` and a first completion
(status 200), a second completion for the same id changes the retained
record's status to 404 and appends a third durable line, so response fields
are not filled exactly once and repeated completion is not a no-op. -/
theorem c5_counterexample :
    ((c5St2.requests[0]?).map (fun r => r.responseStatus) = some 404) ∧
    c5St2.fileLines.length = 3 ∧
    c5St1.fileLines.length = 2 ∧
    ((c5St1.requests[0]?).map (fun r => r.responseStatus) = some 200) ∧
    c5St2 ≠ c5St1 := by
  refine ⟨by decide, by decide, by decide, by decide, by decide⟩

/-- Witness for C5: the amended theorem applied at the concrete
once-completed state shows the second completion rewrites the record and
appends a further line. -/
theorem c5_completion_applied_witness :
    logResponse c5St1 ("dddddddd") (some c5Resp2) =
      { c5St1 with
          requests := c5St1.requests.set 0
            (applyResponse (applyResponse (mkEntry c5Inp) c5Resp1) c5Resp2),
          fileLines := c5St1.fileLines ++
            [applyResponse (applyResponse (mkEntry c5Inp) c5Resp1) c5Resp2] } :=
  c5_completion_applied c5St1 ("dddddddd") c5Resp2 0
    (applyResponse (mkEntry c5Inp) c5Resp1) (by decide) (by decide)

/-! ### C8: pcap download name handling (src/proxy/ca.go, WebServer) -/

/-- `strings.TrimPrefix(s, pre)`. -/
def trimPrefixOf (s pre : String) : String :=
  if pre.data.isPrefixOf s.data then String.mk (s.data.drop pre.data.length)
  else s

/-- `strings.HasSuffix(s, suf)`. -/
def isSuffixOfStr (suf s : String) : Bool :=
  suf.data.reverse.isPrefixOf s.data.reverse

/-- `filepath.Base` for slash-separated paths: empty input gives `.`,
trailing slashes are stripped, everything up to the last remaining slash is
removed, and an all-slash input gives `/`. -/
def baseName (p : String) : String :=
  if p = "" then "."
  else
    let rcs := p.data.reverse.dropWhile (fun c => c == '/')
    let tail := (rcs.takeWhile (fun c => c != '/')).reverse
    if tail.isEmpty then "/" else String.mk tail

/-- Outcome of `handlePcapDownload` as seen by the HTTP client: a 400, a
404, or the file at `path` being served. -/
inductive PcapResult where
  | badRequest (msg : String)
  | notFound
  | served (path : String)
deriving DecidableEq

/-- `WebServer.handlePcapDownload`: trim the route prefix, reject an empty
name, sanitise with `filepath.Base`, reject names not ending in `.pcap`,
then 404 when `os.Stat` reports the file missing, else serve it.
`statExists` abstracts `os.Stat` (true = the file exists; the Go code treats
any non-IsNotExist stat outcome as existing).  `filepath.Join` is modelled
as concatenation with a slash, exact up to path cleaning of `logsDir`
itself, since the sanitised name contains no separator. -/
def handlePcapDownload (urlPath : String) (statExists : String → Bool)
    (logsDir : String) : PcapResult :=
  let filename := trimPrefixOf urlPath ("/api/pcap/")
  if filename = "" then PcapResult.badRequest "No filename specified"
  else
    let filename := baseName filename
    if isSuffixOfStr (".pcap") filename = false then
      PcapResult.badRequest "Invalid file type"
    else
      let pcapPath := logsDir ++ "/" ++ filename
      if statExists pcapPath then PcapResult.served pcapPath
      else PcapResult.notFound

/-- A name that passes the suffix check contains no path separator: the
sanitised base name cannot escape the storage directory. -/
theorem baseName_no_slash (p : String)
    (h : isSuffixOfStr (".pcap") (baseName p) = true) :
    '/' ∉ (baseName p).data := by
  by_cases hp : p = ""
  · subst hp
    exact absurd h (by decide)
  · simp only [baseName, if_neg hp] at h ⊢
    set rcs := p.data.reverse.dropWhile (fun c => c == '/') with hrcs
    by_cases htail : ((rcs.takeWhile (fun c => c != '/')).reverse).isEmpty
    · rw [if_pos htail] at h
      exact absurd h (by decide)
    · rw [if_neg htail] at h ⊢
      intro hmem
      have hmem2 : '/' ∈ rcs.takeWhile (fun c => c != '/') := by
        simpa using hmem
      have := List.mem_takeWhile_imp hmem2
      simp at this

/-- C8 (amended): an empty trimmed name or a sanitised name without the
`.pcap` suffix is rejected with a bad-request outcome; names containing path
separators are not rejected but sanitised to their base name, so anything
served lives directly under the storage directory under a separator-free
`.pcap` name; and a valid name whose file is missing yields not-found, never
an internal error. -/
theorem c8_pcap_validation_amended (urlPath logsDir : String)
    (statExists : String → Bool) :
    (trimPrefixOf urlPath ("/api/pcap/") = "" →
      handlePcapDownload urlPath statExists logsDir =
        PcapResult.badRequest "No filename specified") ∧
    (trimPrefixOf urlPath ("/api/pcap/") ≠ "" →
      isSuffixOfStr (".pcap") (baseName (trimPrefixOf urlPath ("/api/pcap/"))) =
        false →
      handlePcapDownload urlPath statExists logsDir =
        PcapResult.badRequest "Invalid file type") ∧
    (∀ f, handlePcapDownload urlPath statExists logsDir = PcapResult.served f →
      f = logsDir ++ "/" ++ baseName (trimPrefixOf urlPath ("/api/pcap/")) ∧
      '/' ∉ (baseName (trimPrefixOf urlPath ("/api/pcap/"))).data ∧
      isSuffixOfStr (".pcap") (baseName (trimPrefixOf urlPath ("/api/pcap/"))) =
        true) ∧
    (trimPrefixOf urlPath ("/api/pcap/") ≠ "" →
      isSuffixOfStr (".pcap") (baseName (trimPrefixOf urlPath ("/api/pcap/"))) =
        true →
      statExists (logsDir ++ "/" ++
        baseName (trimPrefixOf urlPath ("/api/pcap/"))) = false →
      handlePcapDownload urlPath statExists logsDir = PcapResult.notFound) := by
  refine ⟨?_, ?_, ?_, ?_⟩
  · intro h
    simp only [handlePcapDownload]
    rw [if_pos h]
  · intro h1 h2
    simp only [handlePcapDownload]
    rw [if_neg h1, if_pos h2]
  · intro f h
    simp only [handlePcapDownload] at h
    by_cases h1 : trimPrefixOf urlPath ("/api/pcap/") = ""
    · rw [if_pos h1] at h
      cases h
    · rw [if_neg h1] at h
      by_cases h2 : isSuffixOfStr (".pcap")
          (baseName (trimPrefixOf urlPath ("/api/pcap/"))) = false
      · rw [if_pos h2] at h
        cases h
      · rw [if_neg h2] at h
        have h2' : isSuffixOfStr (".pcap")
            (baseName (trimPrefixOf urlPath ("/api/pcap/"))) = true := by
          cases hb : isSuffixOfStr (".pcap")
              (baseName (trimPrefixOf urlPath ("/api/pcap/")))
          · exact absurd hb h2
          · rfl
        by_cases h3 : statExists (logsDir ++ "/" ++
            baseName (trimPrefixOf urlPath ("/api/pcap/"))) = true
        · rw [if_pos h3] at h
          refine ⟨(PcapResult.served.inj h).symm, ?_, h2'⟩
          exact baseName_no_slash _ h2'
        · rw [if_neg h3] at h
          cases h
  · intro h1 h2 h3
    simp only [handlePcapDownload]
    rw [if_neg h1, if_neg (by rw [h2]; simp),
      if_neg (by rw [h3]; simp)]

/-- Counterexample to C8 as stated: the requested name `evil/x.pcap`
contains a path separator, yet the handler does not reject it with a
bad-request outcome — it sanitises it to `x.pcap` and reports not-found
(or serves `logsDir/x.pcap` when it exists). -/
theorem c8_counterexample :
    handlePcapDownload ("/api/pcap/evil/x.pcap") (fun _ => false) ("/logs") =
      PcapResult.notFound ∧
    (∀ msg, handlePcapDownload ("/api/pcap/evil/x.pcap") (fun _ => false)
      ("/logs") ≠ PcapResult.badRequest msg) ∧
    handlePcapDownload ("/api/pcap/evil/x.pcap") (fun _ => true) ("/logs") =
      PcapResult.served ("/logs/x.pcap") := by
  have h1 : handlePcapDownload ("/api/pcap/evil/x.pcap") (fun _ => false)
      ("/logs") = PcapResult.notFound := by decide
  refine ⟨h1, ?_, by decide⟩
  intro msg h
  rw [h1] at h
  exact PcapResult.noConfusion h

/-- Witness for C8: a separator-free `.pcap` name whose file is absent
yields a not-found outcome. -/
theorem c8_pcap_validation_amended_witness :
    handlePcapDownload ("/api/pcap/x.pcap") (fun _ => false) ("/logs") =
      PcapResult.notFound :=
  (c8_pcap_validation_amended ("/api/pcap/x.pcap") ("/logs")
    (fun _ => false)).2.2.2 (by decide) (by decide) (by decide)

/-! ### C9: LoadOrCreateCA idempotence (src/proxy/ca.go) -/

/-- A flat filesystem at the storage location: path to file contents. -/
def FSys : Type := String → Option String

/-- `os.ReadFile`. -/
def fsRead (fs : FSys) (p : String) : Option String := fs p

/-- `os.WriteFile` (permissions are not modelled). -/
def fsWrite (fs : FSys) (p : String) (c : String) : FSys :=
  fun q => if q = p then some c else fs q

/-- `os.Stat(p); err == nil`. -/
def fsStat (fs : FSys) (p : String) : Bool := (fs p).isSome

/-- The decoding functions of `encoding/pem` and `crypto/x509` used by
`loadCA`, abstracted at their interface: each returns `none` exactly when
the Go call errors.  Certificates and keys are kept abstract as the strings
of their DER bytes. -/
structure X509Codec where
  pemDecodeBlock : String → Option String
  parseCertDER : String → Option String
  parseKeyDER : String → Option String

/-- `CAConfig` (ca.go): the parsed certificate and key plus the raw PEM
bytes as read from or written to disk. -/
structure CAConfig where
  cert : String
  key : String
  CertPEM : String
  KeyPEM : String

/-- `loadCA`: read both files, decode the first PEM block of each, parse
certificate and key; any failure is a fatal error (`none`). The returned
`CertPEM`/`KeyPEM` are the file bytes verbatim. -/
def loadCA (codec : X509Codec) (fs : FSys) (certPath keyPath : String) :
    Option CAConfig :=
  match fsRead fs certPath with
  | none => none
  | some certPEM =>
    match fsRead fs keyPath with
    | none => none
    | some keyPEM =>
      match codec.pemDecodeBlock certPEM with
      | none => none
      | some certBytes =>
        match codec.parseCertDER certBytes with
        | none => none
        | some cert =>
          match codec.pemDecodeBlock keyPEM with
          | none => none
          | some keyBytes =>
            match codec.parseKeyDER keyBytes with
            | none => none
            | some key =>
              some { cert := cert, key := key,
                     CertPEM := certPEM, KeyPEM := keyPEM }

/-- `createCA`: generate a key pair and a self-signed certificate and encode
them (the generated artifacts enter as parameters, standing for the random
generation and PEM encoding, whose error paths always succeed in practice),
write certificate then key, and return them with the PEM bytes just
written. -/
def createCA (fs : FSys) (certPath keyPath : String)
    (cert key certPEM keyPEM : String) : FSys × CAConfig :=
  (fsWrite (fsWrite fs certPath certPEM) keyPath keyPEM,
   { cert := cert, key := key, CertPEM := certPEM, KeyPEM := keyPEM })

/-- `LoadOrCreateCA`: when both artifacts exist, load them (a parse failure
is fatal, not auto-repaired); otherwise create a fresh CA. -/
def loadOrCreateCA (codec : X509Codec) (fs : FSys) (certPath keyPath : String)
    (cert key certPEM keyPEM : String) : Option (FSys × CAConfig) :=
  if fsStat fs certPath then
    if fsStat fs keyPath then
      (loadCA codec fs certPath keyPath).map (fun ca => (fs, ca))
    else some (createCA fs certPath keyPath cert key certPEM keyPEM)
  else some (createCA fs certPath keyPath cert key certPEM keyPEM)

theorem loadCA_sound (codec : X509Codec) (fs : FSys) (certPath keyPath : String)
    (ca : CAConfig) (h : loadCA codec fs certPath keyPath = some ca) :
    fsRead fs certPath = some ca.CertPEM ∧ fsRead fs keyPath = some ca.KeyPEM := by
  unfold loadCA at h
  cases hrc : fsRead fs certPath with
  | none => rw [hrc] at h; cases h
  | some certPEM =>
    rw [hrc] at h
    simp only [] at h
    cases hrk : fsRead fs keyPath with
    | none => rw [hrk] at h; simp only [] at h; cases h
    | some keyPEM =>
      rw [hrk] at h
      simp only [] at h
      cases hb1 : codec.pemDecodeBlock certPEM with
      | none => rw [hb1] at h; simp only [] at h; cases h
      | some certBytes =>
        rw [hb1] at h
        simp only [] at h
        cases hb2 : codec.parseCertDER certBytes with
        | none => rw [hb2] at h; simp only [] at h; cases h
        | some cert =>
          rw [hb2] at h
          simp only [] at h
          cases hb3 : codec.pemDecodeBlock keyPEM with
          | none => rw [hb3] at h; simp only [] at h; cases h
          | some keyBytes =>
            rw [hb3] at h
            simp only [] at h
            cases hb4 : codec.parseKeyDER keyBytes with
            | none => rw [hb4] at h; simp only [] at h; cases h
            | some key =>
              rw [hb4] at h
              simp only [] at h
              cases h
              exact ⟨rfl, rfl⟩

theorem loadCA_of_reads (codec : X509Codec) (fs : FSys)
    (certPath keyPath certPEM keyPEM : String)
    (hrc : fsRead fs certPath = some certPEM)
    (hrk : fsRead fs keyPath = some keyPEM)
    (hc : ∃ b c, codec.pemDecodeBlock certPEM = some b ∧
      codec.parseCertDER b = some c)
    (hk : ∃ b k, codec.pemDecodeBlock keyPEM = some b ∧
      codec.parseKeyDER b = some k) :
    ∃ ca, loadCA codec fs certPath keyPath = some ca ∧
      ca.CertPEM = certPEM ∧ ca.KeyPEM = keyPEM := by
  obtain ⟨b1, c1, hb1, hc1⟩ := hc
  obtain ⟨b2, k1, hb2, hk1⟩ := hk
  refine ⟨{ cert := c1, key := k1, CertPEM := certPEM, KeyPEM := keyPEM },
    ?_, rfl, rfl⟩
  simp only [loadCA, hrc, hrk, hb1, hc1, hb2, hk1]

theorem fsRead_write_self (fs : FSys) (p c : String) :
    fsRead (fsWrite fs p c) p = some c := by
  simp [fsRead, fsWrite]

theorem fsRead_write_ne (fs : FSys) (p c q : String) (h : q ≠ p) :
    fsRead (fsWrite fs p c) q = fsRead fs q := by
  simp [fsRead, fsWrite, h]

/-- C9: `LoadOrCreateCA` is idempotent on the PEM material: after any
successful call (loading or creating), the artifacts on disk equal the
returned `CertPEM`/`KeyPEM`, and a second call against the same storage —
whatever fresh random material it would generate — takes the load path,
changes nothing on disk, and returns bit-identical `CertPEM` and `KeyPEM`,
provided the persisted artifacts decode and parse (they are well-formed PEM
by construction; a failure there is the documented fatal error). -/
theorem c9_load_or_create_idempotent (codec : X509Codec) (fs : FSys)
    (certPath keyPath : String) (hne : certPath ≠ keyPath)
    (cert1 key1 certPEM1 keyPEM1 cert2 key2 certPEM2 keyPEM2 : String)
    (fs1 : FSys) (ca1 : CAConfig)
    (h1 : loadOrCreateCA codec fs certPath keyPath cert1 key1 certPEM1 keyPEM1 =
      some (fs1, ca1))
    (hc : ∃ b c, codec.pemDecodeBlock ca1.CertPEM = some b ∧
      codec.parseCertDER b = some c)
    (hk : ∃ b k, codec.pemDecodeBlock ca1.KeyPEM = some b ∧
      codec.parseKeyDER b = some k) :
    ∃ ca2, loadOrCreateCA codec fs1 certPath keyPath cert2 key2 certPEM2 keyPEM2 =
      some (fs1, ca2) ∧ ca2.CertPEM = ca1.CertPEM ∧ ca2.KeyPEM = ca1.KeyPEM := by
  have hreads : fsRead fs1 certPath = some ca1.CertPEM ∧
      fsRead fs1 keyPath = some ca1.KeyPEM := by
    unfold loadOrCreateCA at h1
    by_cases hs1 : fsStat fs certPath
    · rw [if_pos hs1] at h1
      by_cases hs2 : fsStat fs keyPath
      · rw [if_pos hs2] at h1
        obtain ⟨ca, hca, heq⟩ := Option.map_eq_some'.mp h1
        obtain ⟨hfs, hcaeq⟩ := Prod.mk.inj heq
        subst hfs
        subst hcaeq
        exact loadCA_sound _ _ _ _ _ hca
      · rw [if_neg hs2] at h1
        obtain ⟨hfs, hcaeq⟩ := Prod.mk.inj (Option.some.inj h1)
        subst hfs
        subst hcaeq
        constructor
        · rw [fsRead_write_ne _ _ _ _ hne, fsRead_write_self]
        · rw [fsRead_write_self]
    · rw [if_neg hs1] at h1
      obtain ⟨hfs, hcaeq⟩ := Prod.mk.inj (Option.some.inj h1)
      subst hfs
      subst hcaeq
      constructor
      · rw [fsRead_write_ne _ _ _ _ hne, fsRead_write_self]
      · rw [fsRead_write_self]
  obtain ⟨hr1, hr2⟩ := hreads
  obtain ⟨ca2, hload, hCP, hKP⟩ :=
    loadCA_of_reads codec fs1 certPath keyPath ca1.CertPEM ca1.KeyPEM hr1 hr2 hc hk
  refine ⟨ca2, ?_, hCP, hKP⟩
  unfold loadOrCreateCA
  rw [if_pos (by unfold fsStat; unfold fsRead at hr1; rw [hr1]; rfl),
    if_pos (by unfold fsStat; unfold fsRead at hr2; rw [hr2]; rfl), hload]
  rfl

/-- A codec whose decode and parse steps succeed verbatim, for the witness. -/
def c9Codec : X509Codec :=
  { pemDecodeBlock := fun s => some s, parseCertDER := fun s => some s,
    parseKeyDER := fun s => some s }

/-- An empty storage location. -/
def c9Fs0 : FSys := fun _ => none

/-- The storage after the first (creating) call. -/
def c9Fs1 : FSys := fsWrite (fsWrite c9Fs0 ("ca.crt") "certPemA") ("ca.key") "keyPemA"

/-- The CA material the first call returns. -/
def c9Ca1 : CAConfig :=
  { cert := "certA", key := "keyA", CertPEM := "certPemA", KeyPEM := "keyPemA" }

/-- Witness for C9: against an initially empty storage location, the first
call creates the CA and a second call (with fresh random material) reloads
bit-identical PEM bytes. -/
theorem c9_load_or_create_idempotent_witness :
    ∃ ca2, loadOrCreateCA c9Codec c9Fs1 ("ca.crt") ("ca.key") ("certB") ("keyB")
        ("certPemB") ("keyPemB") = some (c9Fs1, ca2) ∧
      ca2.CertPEM = c9Ca1.CertPEM ∧ ca2.KeyPEM = c9Ca1.KeyPEM :=
  c9_load_or_create_idempotent c9Codec c9Fs0 ("ca.crt") ("ca.key") (by decide)
    ("certA") ("keyA") ("certPemA") ("keyPemA") ("certB") ("keyB") ("certPemB")
    ("keyPemB") c9Fs1 c9Ca1 rfl
    ⟨"certPemA", "certPemA", rfl, rfl⟩ ⟨"keyPemA", "keyPemA", rfl, rfl⟩

/-! ### C4: loading the durable file (Logger.loadExistingLogs)

`json.Unmarshal` is modelled by a JSON value parser plus a decoder into
`RequestLog`; a line is skipped exactly when either stage fails, as in the
Go loop.  Abstractions from `encoding/json`, none of which the claims
exercise: `\u` escapes are rejected, numbers are restricted to integers
(the record's only numeric field is an int, where a fraction errors in Go
too), the nesting depth limit is the fuel rather than Go's 10000, the
timestamp field accepts any JSON string where Go validates RFC3339, and
duplicate keys inside a headers object are kept as a list where Go's map
keeps the last. -/

/-- A JSON value. -/
inductive Json where
  | null : Json
  | bool : Bool → Json
  | num : Int → Json
  | str : String → Json
  | arr : List Json → Json
  | obj : List (String × Json) → Json

/-- The opening curly bracket character. -/
def lbrace : Char := Char.ofNat 123

/-- The closing curly bracket character. -/
def rbrace : Char := Char.ofNat 125

/-- JSON insignificant whitespace. -/
def isWs (c : Char) : Bool :=
  c = ' ' || c = '\t' || c = '\n' || c = '\r'

/-- Skip insignificant whitespace. -/
def skipWs (cs : List Char) : List Char := cs.dropWhile isWs

/-- Parse the remainder of a JSON string after the opening quote,
accumulating characters in reverse. -/
def parseJStrAux : List Char → List Char → Option (String × List Char)
  | _, [] => none
  | acc, c :: rest =>
    if c = '"' then some (String.mk acc.reverse, rest)
    else if c = '\\' then
      match rest with
      | [] => none
      | e :: rest2 =>
        if e = '"' then parseJStrAux ('"' :: acc) rest2
        else if e = '\\' then parseJStrAux ('\\' :: acc) rest2
        else if e = '/' then parseJStrAux ('/' :: acc) rest2
        else if e = 'n' then parseJStrAux ('\n' :: acc) rest2
        else if e = 't' then parseJStrAux ('\t' :: acc) rest2
        else if e = 'r' then parseJStrAux ('\r' :: acc) rest2
        else none
    else parseJStrAux (c :: acc) rest

/-- Parse a run of decimal digits onto an accumulator. -/
def parseDigitsAux : Nat → List Char → Nat × List Char
  | acc, [] => (acc, [])
  | acc, c :: rest =>
    if '0' ≤ c ∧ c ≤ '9' then parseDigitsAux (acc * 10 + (c.toNat - 48)) rest
    else (acc, c :: rest)

/-- Parse a nonempty run of decimal digits. -/
def parseNatNum : List Char → Option (Nat × List Char)
  | [] => none
  | c :: rest =>
    if '0' ≤ c ∧ c ≤ '9' then some (parseDigitsAux (c.toNat - 48) rest)
    else none

/-- Parse an optionally negated integer literal. -/
def parseNum (cs : List Char) : Option (Int × List Char) :=
  match cs with
  | '-' :: rest =>
    match parseNatNum rest with
    | none => none
    | some (n, r) => some (-(n : Int), r)
  | _ =>
    match parseNatNum cs with
    | none => none
    | some (n, r) => some ((n : Int), r)

mutual

/-- Parse one JSON value (fuel bounds the recursion depth). -/
def parseValue : Nat → List Char → Option (Json × List Char)
  | 0, _ => none
  | fuel + 1, cs =>
    match skipWs cs with
    | [] => none
    | c :: rest =>
      if c = 'n' then
        match rest with
        | 'u' :: 'l' :: 'l' :: r => some (Json.null, r)
        | _ => none
      else if c = 't' then
        match rest with
        | 'r' :: 'u' :: 'e' :: r => some (Json.bool true, r)
        | _ => none
      else if c = 'f' then
        match rest with
        | 'a' :: 'l' :: 's' :: 'e' :: r => some (Json.bool false, r)
        | _ => none
      else if c = '"' then
        match parseJStrAux [] rest with
        | none => none
        | some (s, r) => some (Json.str s, r)
      else if c = '[' then
        match parseElemsTop fuel rest with
        | none => none
        | some (vs, r) => some (Json.arr vs, r)
      else if c = lbrace then
        match parseFieldsTop fuel rest with
        | none => none
        | some (fs, r) => some (Json.obj fs, r)
      else if c = '-' ∨ ('0' ≤ c ∧ c ≤ '9') then
        match parseNum (c :: rest) with
        | none => none
        | some (n, r) => some (Json.num n, r)
      else none

/-- Parse the items of an array after `[`, allowing the empty array. -/
def parseElemsTop : Nat → List Char → Option (List Json × List Char)
  | 0, _ => none
  | fuel + 1, cs =>
    match skipWs cs with
    | ']' :: rest => some ([], rest)
    | cs' => parseElemsReq fuel cs'

/-- Parse one or more comma-separated array items up to `]`. -/
def parseElemsReq : Nat → List Char → Option (List Json × List Char)
  | 0, _ => none
  | fuel + 1, cs =>
    match parseValue fuel cs with
    | none => none
    | some (v, rest) =>
      match skipWs rest with
      | ',' :: rest2 =>
        match parseElemsReq fuel rest2 with
        | none => none
        | some (vs, r) => some (v :: vs, r)
      | ']' :: rest2 => some ([v], rest2)
      | _ => none

/-- Parse the members of an object after the opening bracket, allowing the
empty object. -/
def parseFieldsTop : Nat → List Char → Option (List (String × Json) × List Char)
  | 0, _ => none
  | fuel + 1, cs =>
    match skipWs cs with
    | c :: rest =>
      if c = rbrace then some ([], rest)
      else parseFieldsReq fuel (c :: rest)
    | [] => none

/-- Parse one or more comma-separated `"key": value` members up to the
closing bracket. -/
def parseFieldsReq : Nat → List Char → Option (List (String × Json) × List Char)
  | 0, _ => none
  | fuel + 1, cs =>
    match skipWs cs with
    | '"' :: rest =>
      match parseJStrAux [] rest with
      | none => none
      | some (k, rest1) =>
        match skipWs rest1 with
        | ':' :: rest2 =>
          match parseValue fuel rest2 with
          | none => none
          | some (v, rest3) =>
            match skipWs rest3 with
            | ',' :: rest4 =>
              match parseFieldsReq fuel rest4 with
              | none => none
              | some (fs, r) => some ((k, v) :: fs, r)
            | c :: rest4 =>
              if c = rbrace then some ([(k, v)], rest4) else none
            | [] => none
        | _ => none
    | _ => none

end

/-- Parse a whole line as one JSON value with nothing but whitespace after
it, as `json.Unmarshal` requires. -/
def jsonParse (s : String) : Option Json :=
  match parseValue (4 * s.data.length + 4) s.data with
  | none => none
  | some (j, rest) => if (skipWs rest).isEmpty then some j else none

/-- Go map semantics for duplicate keys: the last occurrence wins. -/
def jLookup (fields : List (String × Json)) (key : String) : Option Json :=
  match fields.reverse.find? (fun f => f.1 == key) with
  | none => none
  | some f => some f.2

/-- Decode a string-typed struct field: absent or `null` leaves the zero
value, a string is taken verbatim, any other type is an unmarshal error. -/
def decStrField (fields : List (String × Json)) (key : String) : Option String :=
  match jLookup fields key with
  | none => some ""
  | some Json.null => some ""
  | some (Json.str s) => some s
  | some _ => none

/-- Decode an int-typed struct field with the same conventions. -/
def decIntField (fields : List (String × Json)) (key : String) : Option Int :=
  match jLookup fields key with
  | none => some 0
  | some Json.null => some 0
  | some (Json.num n) => some n
  | some _ => none

/-- One entry of a `map[string]string`: a string value is kept, `null`
stores the zero value, anything else errors. -/
def decStrPair (f : String × Json) : Option (String × String) :=
  match f.2 with
  | Json.str s => some (f.1, s)
  | Json.null => some (f.1, "")
  | _ => none

/-- Decode a `map[string]string` field. -/
def decMapField (fields : List (String × Json)) (key : String) :
    Option (List (String × String)) :=
  match jLookup fields key with
  | none => some []
  | some Json.null => some []
  | some (Json.obj fs) => fs.mapM decStrPair
  | some _ => none

/-- `json.Unmarshal(line, &req)` for the `RequestLog` struct: the top-level
value must be an object (or `null`, which leaves the zero record); unknown
keys are ignored; a type mismatch in any known field is an error. -/
def decodeRequestLog (j : Json) : Option RequestLog :=
  match j with
  | Json.null => some emptyRequestLog
  | Json.obj fs => do
      let id ← decStrField fs ("id")
      let ts ← decStrField fs ("timestamp")
      let me ← decStrField fs ("method")
      let dom ← decStrField fs ("domain")
      let pa ← decStrField fs ("path")
      let hd ← decMapField fs ("headers")
      let bo ← decStrField fs ("body")
      let rs ← decIntField fs ("response_status")
      let rh ← decMapField fs ("response_headers")
      let rb ← decStrField fs ("response_body")
      let pc ← decStrField fs ("pcap_file")
      some { id := id, timestamp := ts, method := me, domain := dom,
             path := pa, headers := hd, body := bo, responseStatus := rs,
             responseHeaders := rh, responseBody := rb, pcapFile := pc }
  | _ => none

/-- `splitLines` (logger.go): cut at every newline, keeping empty interior
segments, and keep a trailing segment only when it is nonempty. -/
def splitLinesAux : List Char → List Char → List String
  | cur, [] => if cur.isEmpty then [] else [String.mk cur.reverse]
  | cur, c :: rest =>
    if c = '\n' then String.mk cur.reverse :: splitLinesAux [] rest
    else splitLinesAux (c :: cur) rest

/-- `splitLines` over a whole file. -/
def splitLines (data : String) : List String := splitLinesAux [] data.data

/-- One line of the durable file: `json.Unmarshal` into a `RequestLog`. -/
def parseLogLine (line : String) : Option RequestLog :=
  match jsonParse line with
  | none => none
  | some j => decodeRequestLog j

/-- `Logger.loadExistingLogs` over the raw file contents: walk the lines,
skip empty lines and lines that fail to unmarshal, append the rest in
order.  No bound is applied and `requestIdx` is not touched. -/
def loadExistingLogs (data : String) : List RequestLog :=
  (splitLines data).foldl
    (fun acc line =>
      if line.length = 0 then acc
      else
        match parseLogLine line with
        | none => acc
        | some r => acc ++ [r])
    []

/-- The logger state `NewLogger` builds over an existing durable file:
`loadExistingLogs` fills `requests`; `fileLines` models only lines appended
later in this session; `requestIdx` is left empty by the load. -/
def newLoggerState (data : String) : LoggerState :=
  { fileLines := [], requests := loadExistingLogs data, requestIdx := [] }

/-- A well-formed durable line. -/
def goodLine : String := "\x7b\"id\":\"req00001\",\"method\":\"GET\",\"domain\":\"example.com\",\"path\":\"/a\",\"pcap_file\":\"c.pcap\"\x7d"

/-- The record `goodLine` unmarshals to. -/
def goodRec : RequestLog :=
  { id := "req00001", timestamp := "", method := "GET",
    domain := "example.com", path := "/a", headers := [], body := "",
    responseStatus := 0, responseHeaders := [], responseBody := "",
    pcapFile := "c.pcap" }

/-- A corrupted durable line. -/
def garbledLine : String := "\x7bnot json"

theorem loadFold_eq (lines : List String) (acc : List RequestLog) :
    lines.foldl
      (fun acc line =>
        if line.length = 0 then acc
        else
          match parseLogLine line with
          | none => acc
          | some r => acc ++ [r]) acc =
      acc ++ lines.filterMap
        (fun line => if line.length = 0 then none else parseLogLine line) := by
  induction lines generalizing acc with
  | nil => simp
  | cons l rest ih =>
    simp only [List.foldl_cons, List.filterMap_cons]
    by_cases hl : l.length = 0
    · simp only [if_pos hl]
      rw [ih]
    · simp only [if_neg hl]
      cases hp : parseLogLine l with
      | none =>
        simp only []
        rw [ih]
      | some r =>
        simp only []
        rw [ih]
        simp [List.append_assoc]

theorem loadExistingLogs_filterMap (data : String) :
    loadExistingLogs data =
      (splitLines data).filterMap
        (fun line => if line.length = 0 then none else parseLogLine line) := by
  unfold loadExistingLogs
  rw [loadFold_eq]
  simp

theorem splitLinesAux_seg (s : List Char) :
    '\n' ∉ s → ∀ cur rest, splitLinesAux cur (s ++ '\n' :: rest) =
      String.mk (cur.reverse ++ s) :: splitLinesAux [] rest := by
  induction s with
  | nil =>
    intro _ cur rest
    simp [splitLinesAux]
  | cons c s' ih =>
    intro h cur rest
    simp only [List.mem_cons, not_or] at h
    have hc : ¬ (c = '\n') := fun hh => h.1 hh.symm
    simp only [List.cons_append, splitLinesAux, if_neg hc, List.append_eq]
    have hih := ih h.2 (c :: cur) rest
    simp only [List.append_eq] at hih
    rw [hih]
    simp

/-- `n` well-formed lines, each newline-terminated. -/
def repeatGoodLines : Nat → String
  | 0 => ""
  | n + 1 => goodLine ++ "\n" ++ repeatGoodLines n

theorem splitLines_repeat (n : Nat) :
    splitLines (repeatGoodLines n) = List.replicate n goodLine := by
  induction n with
  | zero => rfl
  | succ n ih =>
    simp only [repeatGoodLines, splitLines]
    have hdata : (goodLine ++ "\n" ++ repeatGoodLines n).data =
        goodLine.data ++ '\n' :: (repeatGoodLines n).data := by
      simp [String.data_append]
    rw [hdata, splitLinesAux_seg goodLine.data (by decide) [] _]
    simp only [List.reverse_nil, List.nil_append, List.replicate_succ]
    have h1 : ({ data := goodLine.data } : String) = goodLine := rfl
    have h2 : splitLinesAux [] (repeatGoodLines n).data =
        splitLines (repeatGoodLines n) := rfl
    rw [h1, h2, ih]

theorem loadRepeat_length (n : Nat) :
    (loadExistingLogs (repeatGoodLines n)).length = n := by
  rw [loadExistingLogs_filterMap, splitLines_repeat]
  induction n with
  | zero => rfl
  | succ n ih =>
    rw [List.replicate_succ, List.filterMap_cons]
    have hg : (if goodLine.length = 0 then none else parseLogLine goodLine) =
        some goodRec := by decide
    rw [hg]
    simp only [List.length_cons]
    rw [ih]

/-- C4 (amended): `loadExistingLogs` walks the durable file line by line,
skipping empty and unparseable lines without aborting, and appends every
parseable record in arrival order — with no 1000-record bound (n good lines
load n records for every n) — and it builds only the ordered sequence: the
id-to-position lookup is left empty.  A file of one well-formed and one
garbled line yields exactly the well-formed record. -/
theorem c4_restore_amended :
    (∀ data : String, loadExistingLogs data =
      (splitLines data).filterMap
        (fun line => if line.length = 0 then none else parseLogLine line)) ∧
    loadExistingLogs (goodLine ++ "\n" ++ garbledLine ++ "\n") = [goodRec] ∧
    (∀ data : String, (newLoggerState data).requests = loadExistingLogs data) ∧
    (∀ data : String, (newLoggerState data).requestIdx = []) ∧
    (∀ n : Nat, (loadExistingLogs (repeatGoodLines n)).length = n) := by
  refine ⟨loadExistingLogs_filterMap, by decide, fun _ => rfl, fun _ => rfl,
    loadRepeat_length⟩

/-- Counterexample to C4 as stated: loading a file with one well-formed line
does fill the ordered sequence, but the id-to-position lookup is not built
(the loaded record's id resolves to nothing), and the load applies no
1000-record bound: 1001 well-formed lines yield 1001 in-memory records. -/
theorem c4_counterexample :
    (newLoggerState (goodLine ++ "\n")).requests = [goodRec] ∧
    mapLookup (newLoggerState (goodLine ++ "\n")).requestIdx ("req00001") =
      none ∧
    (loadExistingLogs (repeatGoodLines 1001)).length = 1001 ∧
    ¬ ((loadExistingLogs (repeatGoodLines 1001)).length ≤ 1000) := by
  refine ⟨by decide, rfl, loadRepeat_length 1001, ?_⟩
  rw [loadRepeat_length 1001]
  omega
